import Mathlib

/-
Verification of the emotion signal-processing pipeline of face-tracker-mobile
(src/src/App.jsx).  The definitions below are a shallow embedding of the
pipeline: real-valued classifier scores are modelled with rationals, JS
objects with possibly-missing keys are modelled as Option-valued maps, and
the per-tick updates of the sampling loop are explicit state-passing
functions.
-/

set_option maxRecDepth 4000

namespace FaceTracker

/-- The seven emotion categories, in the declaration order of the EMOTIONS
table in App.jsx (lines 4-12). -/
inductive Emotion : Type
  | angry | disgusted | fearful | happy | neutral | sad | surprised
deriving DecidableEq, Repr

/-- The EMOTIONS declaration order. -/
def Emotion.all : List Emotion :=
  [.angry, .disgusted, .fearful, .happy, .neutral, .sad, .surprised]

/-- The six non-neutral categories (neutral is excluded from percentage and
classification computations). -/
inductive NN : Type
  | angry | disgusted | fearful | happy | sad | surprised
deriving DecidableEq, Repr

/-- The non-neutral categories in object-key order (EMOTIONS order with
neutral removed), as produced by the rest-destructuring in
calculateEmotionPercentages. -/
def NN.list : List NN := [.angry, .disgusted, .fearful, .happy, .sad, .surprised]

/-- A raw ScoreVector: one classifier confidence per category
(result.expressions in App.jsx). -/
structure Scores where
  angry : ℚ
  disgusted : ℚ
  fearful : ℚ
  happy : ℚ
  neutral : ℚ
  sad : ℚ
  surprised : ℚ
deriving DecidableEq, Repr

/-- Field access by category. -/
def Scores.get (s : Scores) : Emotion → ℚ
  | .angry => s.angry
  | .disgusted => s.disgusted
  | .fearful => s.fearful
  | .happy => s.happy
  | .neutral => s.neutral
  | .sad => s.sad
  | .surprised => s.surprised

/-- Field access by non-neutral category. -/
def Scores.nn (s : Scores) : NN → ℚ
  | .angry => s.angry
  | .disgusted => s.disgusted
  | .fearful => s.fearful
  | .happy => s.happy
  | .sad => s.sad
  | .surprised => s.surprised

/-- A JS object keyed by non-neutral categories whose keys may be missing:
the type of emotionPercentages and smoothedEmotions. -/
abbrev EMap : Type := NN → Option ℚ

/-- Reading a key with the fallback of the source: prev[emotion] || 0 reads a
missing key as 0. -/
def EMap.read (m : EMap) (c : NN) : ℚ := (m c).getD 0

/-- The empty object. -/
def EMap.empty : EMap := fun _ => none

/-- The Object.keys(m).length === 0 test. -/
def EMap.isEmpty (m : EMap) : Bool :=
  NN.list.all fun c => (m c).isNone

/-- Math.abs on rationals. -/
def mabs (q : ℚ) : ℚ := if q < 0 then -q else q

/-- smoothingFactor = 0.1 (App.jsx line 98). -/
def smoothingFactor : ℚ := 1 / 10

/-- timeWindowMs = 15000 (App.jsx line 93). -/
def timeWindowMs : ℚ := 15000

/-- calculateEmotionPercentages (App.jsx lines 113-125): drop neutral, sum
the six remaining raw scores; if the total is 0 return the empty object,
otherwise return (score / total) * 100 for every non-neutral key. -/
def nnTotal (s : Scores) : ℚ :=
  s.angry + s.disgusted + s.fearful + s.happy + s.sad + s.surprised

def calculateEmotionPercentages (s : Scores) : EMap :=
  if nnTotal s = 0 then EMap.empty
  else fun c => some (s.nn c / nnTotal s * 100)

/-- The setSmoothedEmotions updater body (App.jsx lines 234-239): a fresh
object is built holding exactly the keys of emotionPercentages; for each
such key the new value is prevValue + (percentage - prevValue) * 0.1 with a
missing previous value read as 0.  Keys absent from emotionPercentages are
absent from the result. -/
def smoothUpdate (prev p : EMap) : EMap := fun c =>
  match p c with
  | none => none
  | some pc => some (prev.read c + (pc - prev.read c) * smoothingFactor)

/-- n successive smoother updates against the same percentage object. -/
def smoothIter (p s : EMap) : ℕ → EMap
  | 0 => s
  | n + 1 => smoothUpdate (smoothIter p s n) p

/-- A reference profile from the EMOTION_STATES table (App.jsx lines 15-71):
a name and the targetPercentages entries in their declaration order. -/
structure EState where
  name : String
  targets : List (NN × ℚ)
deriving DecidableEq, Repr

def stHighlyEngaged : EState :=
  { name := "Highly Engaged",
    targets := [(.happy, 35), (.surprised, 20), (.fearful, 0), (.angry, 0),
                (.disgusted, 0), (.sad, 0)] }

def stConstructivelyStruggling : EState :=
  { name := "Constructively Struggling",
    targets := [(.happy, 15), (.surprised, 10), (.fearful, 10), (.angry, 10),
                (.disgusted, 0), (.sad, 10)] }

def stConfusedOverloaded : EState :=
  { name := "Confused / Overloaded",
    targets := [(.happy, 5), (.surprised, 15), (.fearful, 15), (.angry, 10),
                (.disgusted, 5), (.sad, 10)] }

def stDisengagedDistracted : EState :=
  { name := "Disengaged / Distracted",
    targets := [(.happy, 5), (.surprised, 5), (.fearful, 5), (.angry, 5),
                (.disgusted, 5), (.sad, 20)] }

def stActivelyResistant : EState :=
  { name := "Actively Resistant",
    targets := [(.happy, 0), (.surprised, 5), (.fearful, 5), (.angry, 40),
                (.disgusted, 25), (.sad, 10)] }

/-- The profiles after the first one, in table order. -/
def restStates : List EState :=
  [stConstructivelyStruggling, stConfusedOverloaded, stDisengagedDistracted,
   stActivelyResistant]

/-- The EMOTION_STATES table in declaration order. -/
def EMOTION_STATES : List EState := stHighlyEngaged :: restStates

/-- totalDifference accumulated over the target entries of a profile: the sum of
Math.abs(target - (emotionPercentages[emotion] || 0)). -/
def targetsDiff (sm : EMap) (ts : List (NN × ℚ)) : ℚ :=
  ts.foldl (fun acc t => acc + mabs (t.2 - sm.read t.1)) 0

/-- avgDifference for one profile: totalDifference / comparedEmotions. -/
def stateScore (sm : EMap) (st : EState) : ℚ :=
  targetsDiff sm st.targets / (st.targets.length : ℚ)

/-- One step of the bestMatch fold in detectCurrentState (App.jsx lines
134-152).  bestMatch.score starts at Infinity, modelled as none: any finite
avgDifference beats it.  A profile with zero target entries is skipped. -/
def bestStep (sm : EMap) (best : String × Option ℚ) (st : EState) :
    String × Option ℚ :=
  if 0 < st.targets.length then
    match best.2 with
    | none => (st.name, some (stateScore sm st))
    | some b =>
        if stateScore sm st < b then (st.name, some (stateScore sm st)) else best
  else best

/-- detectCurrentState (App.jsx lines 129-155): empty input returns the
empty string; otherwise the fold over EMOTION_STATES starting from
bestMatch = ("", Infinity). -/
def detectCurrentState (sm : EMap) : String :=
  if sm.isEmpty then ""
  else (List.foldl (bestStep sm) ("", none) EMOTION_STATES).1

/-- The state update guard in the runLoop updater (App.jsx lines 242-249):
setCurrentState(newState) runs only when newState is a non-empty string
different from the held state. -/
def applyStateUpdate (cur : String) (sm : EMap) : String :=
  let newState := detectCurrentState sm
  if newState ≠ "" ∧ newState ≠ cur then newState else cur

/-- Arithmetic-level shadow of the bestMatch fold, once the accumulator
holds a finite score. -/
def pickBest (sm : EMap) : List EState → String × ℚ → String × ℚ
  | [], acc => acc
  | st :: rest, acc =>
      pickBest sm rest
        (if stateScore sm st < acc.2 then (st.name, stateScore sm st) else acc)

/-- A point of the emotion history (App.jsx lines 255-259). -/
structure HistoryPoint where
  timestamp : ℚ
  emotions : Scores
deriving DecidableEq, Repr

/-- The setEmotionHistory updater (App.jsx lines 261-266): append the new
point, then keep only the points with timestamp >= timestamp - timeWindowMs
where timestamp is the timestamp of the new point. -/
def historyStep (prev : List HistoryPoint) (pt : HistoryPoint) :
    List HistoryPoint :=
  (prev ++ [pt]).filter fun q =>
    decide (pt.timestamp - timeWindowMs ≤ q.timestamp)

/-- The dominant category of a reading: Object.entries sorted by descending
score (stable), first entry; equivalently the first category in entries
order attaining the maximum score. -/
def dominant (s : Scores) : Emotion :=
  Emotion.all.foldl (fun best e => if s.get e > s.get best then e else best)
    Emotion.angry

/-- What one loop iteration can observe from the detector. -/
inductive TickResult : Type
  | success (s : Scores)
  | noDetection
  | failure (errTime : ℚ)

/-- The loop-owned bookkeeping state relevant to timing: lastTickRef and the
session counters. -/
structure LoopState where
  lastTick : Option ℚ
  emotionCounts : Emotion → ℕ
  emotionDurationsMs : Emotion → ℚ

/-- One iteration of the runLoop timing bookkeeping (App.jsx lines 204-228 and
268-272): every attempt computes deltaMs = max(0, now - (lastTick ?? now))
and sets lastTick := now; a successful detection adds deltaMs to the
duration of the dominant category and bumps its count; a no-detection attempt
changes nothing else; a thrown error additionally overwrites lastTick with
the time observed in the catch block. -/
def tickStep (st : LoopState) (now : ℚ) (r : TickResult) : LoopState :=
  let prev := st.lastTick.getD now
  let deltaMs := max 0 (now - prev)
  match r with
  | .success s =>
      let d := dominant s
      { lastTick := some now,
        emotionCounts := fun e =>
          if e = d then st.emotionCounts e + 1 else st.emotionCounts e,
        emotionDurationsMs := fun e =>
          if e = d then st.emotionDurationsMs e + deltaMs
          else st.emotionDurationsMs e }
  | .noDetection => { st with lastTick := some now }
  | .failure t => { st with lastTick := some t }

/-- The React-owned application state touched by resetSession. -/
structure AppState where
  emotionCounts : Emotion → ℕ
  emotionDurationsMs : Emotion → ℚ
  emotionHistory : List HistoryPoint
  smoothedEmotions : EMap
  currentState : String

/-- resetSession (App.jsx lines 296-300): zero the counts and durations and
clear the history; smoothedEmotions and currentState are not touched. -/
def resetSession (st : AppState) : AppState :=
  { st with
    emotionCounts := fun _ => 0,
    emotionDurationsMs := fun _ => 0,
    emotionHistory := [] }

/-- The initial React state (App.jsx lines 83-97): zero counters, empty
history, empty smoothed map, and currentState initialized to
"Actively Resistant" (line 96, commented "Test state"). -/
def initialAppState : AppState :=
  { emotionCounts := fun _ => 0,
    emotionDurationsMs := fun _ => 0,
    emotionHistory := [],
    smoothedEmotions := EMap.empty,
    currentState := "Actively Resistant" }

/-- Sum of the readings of a percentage object over the six non-neutral
categories. -/
def percSum (m : EMap) : ℚ := (NN.list.map fun c => m.read c).sum

/-- All seven raw scores lie in the unit interval. -/
abbrev unitRange (s : Scores) : Prop :=
  0 ≤ s.angry ∧ s.angry ≤ 1 ∧ 0 ≤ s.disgusted ∧ s.disgusted ≤ 1 ∧
  0 ≤ s.fearful ∧ s.fearful ≤ 1 ∧ 0 ≤ s.happy ∧ s.happy ≤ 1 ∧
  0 ≤ s.neutral ∧ s.neutral ≤ 1 ∧ 0 ≤ s.sad ∧ s.sad ≤ 1 ∧
  0 ≤ s.surprised ∧ s.surprised ≤ 1

/-- Every stored smoothed value lies in [0, 100]. -/
def smoothedInRange (m : EMap) : Prop :=
  ∀ c v, m c = some v → 0 ≤ v ∧ v ≤ 100

/- Concrete inputs used by counterexamples and witnesses. -/

/-- A reading whose non-neutral scores are all zero (degenerate reading). -/
def zeroScores : Scores :=
  { angry := 0, disgusted := 0, fearful := 0, happy := 0, neutral := 1,
    sad := 0, surprised := 0 }

/-- The concrete reading from the worked scenario in the spec. -/
def exampleScores : Scores :=
  { angry := 7/10, disgusted := 0, fearful := 0, happy := 1/10,
    neutral := 1/10, sad := 0, surprised := 1/10 }

/-- A reading whose maximum is happy. -/
def sHappy : Scores :=
  { angry := 0, disgusted := 0, fearful := 0, happy := 1, neutral := 0,
    sad := 0, surprised := 0 }

/-- A smoothed state holding a single key. -/
def s1 : EMap := fun c => match c with
  | .angry => some 50
  | _ => none

/-- A full percentage object concentrated on angry. -/
def pAll : EMap := fun c => match c with
  | .angry => some 100
  | _ => some 0

/-- A smoothed state equidistant from the first two profiles: both
"Highly Engaged" and "Constructively Struggling" score a mean absolute
difference of 5, and every other profile scores strictly more. -/
def tieSmoothed : EMap := fun c => match c with
  | .happy => some 25
  | .surprised => some 15
  | .fearful => some 5
  | .angry => some 5
  | .disgusted => some 0
  | .sad => some 5

/-- Loop state right after runLoop starts at time 0 (lastTickRef set by
init, counters zero). -/
def initLoopState : LoopState :=
  { lastTick := some 0, emotionCounts := fun _ => 0,
    emotionDurationsMs := fun _ => 0 }

/-- An app state holding a non-empty smoothed map. -/
def appWithSmoothed : AppState :=
  { emotionCounts := fun _ => 0,
    emotionDurationsMs := fun _ => 0,
    emotionHistory := [],
    smoothedEmotions := s1,
    currentState := "Highly Engaged" }

/-- C1 (amended): one smoother update with factor 0.1 rebuilds the smoothed
object from the keys of the percentage object p: every category present in p
gets s[c] + 0.1 * (p[c] - s[c]) with a missing prior value read as 0, every
category absent from p is dropped from the result, and when p is the empty
mapping the resulting SmoothedState is the empty mapping, not the prior
state. -/
theorem exponentialSmoother_update_amended (s p : EMap) :
    (∀ c pc, p c = some pc →
      smoothUpdate s p c = some (s.read c + (pc - s.read c) * smoothingFactor)) ∧
    (∀ c, p c = none → smoothUpdate s p c = none) ∧
    (p = EMap.empty → smoothUpdate s p = EMap.empty) := by
  refine ⟨fun c pc hc => ?_, fun c hc => ?_, fun hp => ?_⟩
  · simp [smoothUpdate, hc]
  · simp [smoothUpdate, hc]
  · subst hp; funext c; rfl

/-- Witness for the amended C1 theorem at a concrete smoothed state and
percentage object. -/
theorem exponentialSmoother_update_amended_witness :
    pAll NN.angry = some 100 ∧
    smoothUpdate s1 pAll NN.angry
      = some (s1.read NN.angry + (100 - s1.read NN.angry) * smoothingFactor) :=
  ⟨rfl, (exponentialSmoother_update_amended s1 pAll).1 NN.angry 100 rfl⟩

/-- C1 counterexample: with a degenerate reading (all non-neutral raw scores
zero) the percentage object is empty, and the smoother update then replaces
a non-empty SmoothedState with the empty mapping instead of leaving it
unchanged. -/
theorem exponentialSmoother_empty_update_cex :
    calculateEmotionPercentages zeroScores = EMap.empty ∧
    s1 NN.angry = some 50 ∧
    smoothUpdate s1 (calculateEmotionPercentages zeroScores) NN.angry = none ∧
    smoothUpdate s1 (calculateEmotionPercentages zeroScores) ≠ s1 := by
  have h0 : nnTotal zeroScores = 0 := by norm_num [nnTotal, zeroScores]
  have hcalc : calculateEmotionPercentages zeroScores = EMap.empty := by
    simp [calculateEmotionPercentages, h0]
  refine ⟨hcalc, rfl, ?_, ?_⟩
  · rw [hcalc]; rfl
  · rw [hcalc]
    intro h
    have h2 := congrFun h NN.angry
    simp [smoothUpdate, EMap.empty, s1] at h2

/-- C3: ProportionNormalizer excludes neutral and sums the six remaining raw
scores as total; a zero total yields the empty mapping, and otherwise every
non-neutral category is mapped to 100 * score / total and the six entries
sum to exactly 100. -/
theorem proportionNormalizer_spec (s : Scores) :
    (nnTotal s = 0 → calculateEmotionPercentages s = EMap.empty) ∧
    (nnTotal s ≠ 0 →
      (∀ c, calculateEmotionPercentages s c = some (100 * s.nn c / nnTotal s)) ∧
      percSum (calculateEmotionPercentages s) = 100) := by
  constructor
  · intro h; simp [calculateEmotionPercentages, h]
  · intro h
    have hpt : ∀ c, calculateEmotionPercentages s c
        = some (100 * s.nn c / nnTotal s) := by
      intro c
      simp only [calculateEmotionPercentages, if_neg h]
      congr 1
      ring
    refine ⟨hpt, ?_⟩
    have hread : ∀ c, (calculateEmotionPercentages s).read c
        = 100 * s.nn c / nnTotal s := by
      intro c; rw [EMap.read, hpt c]; rfl
    simp only [percSum, NN.list, List.map_cons, List.map_nil, List.sum_cons,
      List.sum_nil, hread]
    field_simp
    simp only [Scores.nn, nnTotal]
    ring

/-- Witness for C3 at the worked scenario reading of the spec. -/
theorem proportionNormalizer_spec_witness :
    nnTotal exampleScores ≠ 0 ∧
    calculateEmotionPercentages exampleScores NN.angry
      = some (100 * exampleScores.nn NN.angry / nnTotal exampleScores) ∧
    percSum (calculateEmotionPercentages exampleScores) = 100 := by
  have h : nnTotal exampleScores ≠ 0 := by norm_num [nnTotal, exampleScores]
  exact ⟨h, ((proportionNormalizer_spec exampleScores).2 h).1 NN.angry,
    ((proportionNormalizer_spec exampleScores).2 h).2⟩

/-- C9 (amended): resetSession zeroes the counts and durations and clears
the history but leaves smoothedEmotions (and currentState) untouched; and a
normal tick whose percentage object is empty empties the SmoothedState on
its own. -/
theorem resetSession_amended (st : AppState) :
    (resetSession st).smoothedEmotions = st.smoothedEmotions ∧
    (resetSession st).currentState = st.currentState ∧
    (resetSession st).emotionHistory = [] ∧
    (∀ e, (resetSession st).emotionCounts e = 0) ∧
    (∀ e, (resetSession st).emotionDurationsMs e = 0) ∧
    (∀ m : EMap, smoothUpdate m EMap.empty = EMap.empty) :=
  ⟨rfl, rfl, rfl, fun _ => rfl, fun _ => rfl, fun _ => funext fun _ => rfl⟩

/-- C9 counterexample: an explicit session reset does not clear a non-empty
SmoothedState, while a tick with an empty percentage object does clear it. -/
theorem resetSession_smoothed_cex :
    (resetSession appWithSmoothed).smoothedEmotions NN.angry = some 50 ∧
    (resetSession appWithSmoothed).smoothedEmotions ≠ EMap.empty ∧
    s1 ≠ EMap.empty ∧
    smoothUpdate s1 EMap.empty = EMap.empty := by
  refine ⟨rfl, ?_, ?_, funext fun _ => rfl⟩
  · intro h
    have h2 := congrFun h NN.angry
    simp [resetSession, appWithSmoothed, s1, EMap.empty] at h2
  · intro h
    have h2 := congrFun h NN.angry
    simp [s1, EMap.empty] at h2

/-- C7: for any starting smoothed state, any percentage object p and any
category present in p, n successive smoother updates against the same p
leave the distance to p[c] at exactly (1 - 0.1) to the n times the starting
distance, and that distance strictly shrinks at every step while it is
nonzero. -/
theorem smoother_geometric_convergence (s0 p : EMap) (c : NN) (pc : ℚ)
    (n : ℕ) (hp : p c = some pc) :
    |(smoothIter p s0 n).read c - pc| = |s0.read c - pc| * (9 / 10) ^ n ∧
    (0 < |s0.read c - pc| →
      |(smoothIter p s0 (n + 1)).read c - pc|
        < |(smoothIter p s0 n).read c - pc|) := by
  have key : ∀ m : EMap, (smoothUpdate m p).read c - pc
      = (9 / 10) * (m.read c - pc) := by
    intro m
    simp only [smoothUpdate, EMap.read, hp, smoothingFactor, Option.getD_some]
    ring
  have habs : ∀ k : ℕ, |(smoothIter p s0 k).read c - pc|
      = |s0.read c - pc| * (9 / 10) ^ k := by
    intro k
    induction k with
    | zero => simp [smoothIter]
    | succ k ih =>
      have hstep : smoothIter p s0 (k + 1) = smoothUpdate (smoothIter p s0 k) p := rfl
      rw [hstep, key, abs_mul, ih, abs_of_pos (by norm_num : (0 : ℚ) < 9 / 10)]
      ring
  refine ⟨habs n, fun hpos => ?_⟩
  rw [habs n, habs (n + 1)]
  have hq : (9 / 10 : ℚ) ^ (n + 1) < (9 / 10 : ℚ) ^ n := by
    have hpow : (0 : ℚ) < (9 / 10 : ℚ) ^ n := pow_pos (by norm_num) n
    calc (9 / 10 : ℚ) ^ (n + 1) = (9 / 10 : ℚ) ^ n * (9 / 10) := by ring
      _ < (9 / 10 : ℚ) ^ n * 1 := by
          exact mul_lt_mul_of_pos_left (by norm_num) hpow
      _ = (9 / 10 : ℚ) ^ n := by ring
  exact mul_lt_mul_of_pos_left hq hpos

/-- Witness for C7: from the empty smoothed state, one update against a
percentage object holding 100 for angry moves the reading to 10, one tenth
of the way, and the distance keeps strictly shrinking. -/
theorem smoother_geometric_convergence_witness :
    pAll NN.angry = some 100 ∧
    0 < |EMap.empty.read NN.angry - 100| ∧
    |(smoothIter pAll EMap.empty 1).read NN.angry - 100|
      = |EMap.empty.read NN.angry - 100| * (9 / 10) ^ 1 ∧
    |(smoothIter pAll EMap.empty 2).read NN.angry - 100|
      < |(smoothIter pAll EMap.empty 1).read NN.angry - 100| := by
  have h := smoother_geometric_convergence EMap.empty pAll NN.angry 100 1 rfl
  have hpos : 0 < |EMap.empty.read NN.angry - (100 : ℚ)| := by
    norm_num [EMap.read, EMap.empty]
  exact ⟨rfl, hpos, h.1, h.2 hpos⟩

/-- C8: one append-then-evict step of the HistoryWindow keeps exactly those
of the prior points plus the appended point whose timestamp is at least the
timestamp of the new point minus 15000 ms, in their original relative order; the
appended point itself is always kept, a prior point with a timestamp below
the cutoff is evicted, and when the clock is monotone (no prior point is
newer than the appended one) no two retained points are more than 15000 ms
apart. -/
theorem historyWindow_spec (prev : List HistoryPoint) (pt : HistoryPoint) :
    historyStep prev pt = (prev ++ [pt]).filter
      (fun q => decide (pt.timestamp - timeWindowMs ≤ q.timestamp)) ∧
    (historyStep prev pt).Sublist (prev ++ [pt]) ∧
    (∀ q, q ∈ historyStep prev pt ↔
      (q ∈ prev ++ [pt] ∧ pt.timestamp - timeWindowMs ≤ q.timestamp)) ∧
    pt ∈ historyStep prev pt ∧
    (∀ q ∈ prev, q.timestamp < pt.timestamp - timeWindowMs →
      q ∉ historyStep prev pt) ∧
    ((∀ q ∈ prev, q.timestamp ≤ pt.timestamp) →
      ∀ q ∈ historyStep prev pt, ∀ r ∈ historyStep prev pt,
        q.timestamp - r.timestamp ≤ timeWindowMs) := by
  have hmem : ∀ q, q ∈ historyStep prev pt ↔
      (q ∈ prev ++ [pt] ∧ pt.timestamp - timeWindowMs ≤ q.timestamp) := by
    intro q
    simp only [historyStep, List.mem_filter, decide_eq_true_eq]
  refine ⟨rfl, List.filter_sublist _, hmem, ?_, ?_, ?_⟩
  · rw [hmem]
    refine ⟨List.mem_append_right _ (List.mem_singleton.mpr rfl), ?_⟩
    have hw : (0 : ℚ) ≤ timeWindowMs := by norm_num [timeWindowMs]
    linarith
  · intro q _ hlt hq
    rw [hmem] at hq
    linarith [hq.2]
  · intro hmono q hq r hr
    rw [hmem] at hq hr
    have hqle : q.timestamp ≤ pt.timestamp := by
      rcases List.mem_append.mp hq.1 with h | h
      · exact hmono q h
      · rw [List.mem_singleton.mp h]
    linarith [hr.2]

/-- Witness for C8 on a concrete three-point history: the monotone-clock
hypothesis holds and every pair of retained points is within the window. -/
theorem historyWindow_spec_witness :
    (∀ q ∈ [HistoryPoint.mk 0 zeroScores, HistoryPoint.mk 1000 zeroScores],
      q.timestamp ≤ (HistoryPoint.mk 16000 zeroScores).timestamp) ∧
    (∀ q ∈ historyStep [HistoryPoint.mk 0 zeroScores,
        HistoryPoint.mk 1000 zeroScores] (HistoryPoint.mk 16000 zeroScores),
      ∀ r ∈ historyStep [HistoryPoint.mk 0 zeroScores,
        HistoryPoint.mk 1000 zeroScores] (HistoryPoint.mk 16000 zeroScores),
      q.timestamp - r.timestamp ≤ timeWindowMs) := by
  have hmono : ∀ q ∈ [HistoryPoint.mk 0 zeroScores,
      HistoryPoint.mk 1000 zeroScores],
      q.timestamp ≤ (HistoryPoint.mk 16000 zeroScores).timestamp := by
    intro q hq
    rcases List.mem_cons.mp hq with h | h
    · rw [h]; norm_num
    · rw [List.mem_singleton.mp h]; norm_num
  exact ⟨hmono, (historyWindow_spec _ _).2.2.2.2.2 hmono⟩

/-- C10: starting from the empty smoothed state, every value the pipeline
stores stays in [0, 100]: the empty state satisfies the invariant, every
normalized percentage computed from unit-interval raw scores lies in
[0, 100], each stored update is the convex combination
0.9 * previous + 0.1 * percentage with a missing previous value read as 0,
and one full tick update preserves the invariant. -/
theorem smoothed_values_in_range (m : EMap) (s : Scores)
    (hm : smoothedInRange m) (hs : unitRange s) :
    smoothedInRange EMap.empty ∧
    (∀ c v, calculateEmotionPercentages s c = some v → 0 ≤ v ∧ v ≤ 100) ∧
    (∀ p c pc, p c = some pc →
      smoothUpdate m p c = some ((9 / 10) * m.read c + (1 / 10) * pc)) ∧
    smoothedInRange (smoothUpdate m (calculateEmotionPercentages s)) := by
  obtain ⟨ha0, ha1, hd0, hd1, hf0, hf1, hh0, hh1, hn0, hn1, hsa0, hsa1,
    hsu0, hsu1⟩ := hs
  have hperc : ∀ c v, calculateEmotionPercentages s c = some v →
      0 ≤ v ∧ v ≤ 100 := by
    intro c v hv
    by_cases hT : nnTotal s = 0
    · simp [calculateEmotionPercentages, hT, EMap.empty] at hv
    · have hTpos : 0 < nnTotal s := by
        rcases lt_or_eq_of_le (show (0 : ℚ) ≤ nnTotal s by
          simp only [nnTotal]; linarith) with h | h
        · exact h
        · exact absurd h.symm hT
      simp only [calculateEmotionPercentages, if_neg hT] at hv
      have hv2 : v = s.nn c / nnTotal s * 100 := (Option.some.injEq _ _ ▸ hv).symm
      have hc0 : 0 ≤ s.nn c := by cases c <;> simp [Scores.nn] <;> linarith
      have hcT : s.nn c ≤ nnTotal s := by
        cases c <;> simp only [Scores.nn, nnTotal] <;> linarith
      constructor
      · rw [hv2]
        exact mul_nonneg (div_nonneg hc0 (le_of_lt hTpos)) (by norm_num)
      · rw [hv2]
        have hdiv : s.nn c / nnTotal s ≤ 1 := (div_le_one hTpos).mpr hcT
        calc s.nn c / nnTotal s * 100 ≤ 1 * 100 :=
              mul_le_mul_of_nonneg_right hdiv (by norm_num)
          _ = 100 := by ring
  have hconv : ∀ p c pc, p c = some pc →
      smoothUpdate m p c = some ((9 / 10) * m.read c + (1 / 10) * pc) := by
    intro p c pc hpc
    simp only [smoothUpdate, hpc, smoothingFactor, Option.some.injEq]
    ring
  refine ⟨fun c v hv => by simp [EMap.empty] at hv, hperc, hconv, ?_⟩
  intro c v hv
  cases hp : calculateEmotionPercentages s c with
  | none => simp [smoothUpdate, hp] at hv
  | some pc =>
    rw [hconv _ c pc hp, Option.some.injEq] at hv
    have hpc := hperc c pc hp
    have hprev : 0 ≤ m.read c ∧ m.read c ≤ 100 := by
      rw [EMap.read]
      cases hmc : m c with
      | none => simp
      | some w => simpa using hm c w hmc
    constructor
    · rw [← hv]; linarith [hprev.1, hpc.1]
    · rw [← hv]; linarith [hprev.2, hpc.2]

/-- Witness for C10 at the empty smoothed state and the worked
scenario reading. -/
theorem smoothed_values_in_range_witness :
    unitRange exampleScores ∧
    smoothedInRange (smoothUpdate EMap.empty
      (calculateEmotionPercentages exampleScores)) := by
  have hempty : smoothedInRange EMap.empty := by
    intro c v hv; simp [EMap.empty] at hv
  have hunit : unitRange exampleScores := by
    refine ⟨?_, ?_, ?_, ?_, ?_, ?_, ?_, ?_, ?_, ?_, ?_, ?_, ?_, ?_⟩ <;>
      norm_num [exampleScores]
  exact ⟨hunit,
    (smoothed_values_in_range EMap.empty exampleScores hempty hunit).2.2.2⟩

/-- Reduction of one bestMatch step from the Infinity accumulator. -/
theorem bestStep_none (sm : EMap) (st : EState) (n : String)
    (h : 0 < st.targets.length) :
    bestStep sm (n, none) st = (st.name, some (stateScore sm st)) := by
  simp [bestStep, h]

/-- Reduction of one bestMatch step that strictly improves the score. -/
theorem bestStep_lt (sm : EMap) (st : EState) (n : String) (q : ℚ)
    (h : 0 < st.targets.length) (hlt : stateScore sm st < q) :
    bestStep sm (n, some q) st = (st.name, some (stateScore sm st)) := by
  simp [bestStep, h, hlt]

/-- Reduction of one bestMatch step that does not strictly improve. -/
theorem bestStep_keep (sm : EMap) (st : EState) (n : String) (q : ℚ)
    (h : 0 < st.targets.length) (hge : ¬ stateScore sm st < q) :
    bestStep sm (n, some q) st = (n, some q) := by
  simp [bestStep, h, hge]

/-- Once the accumulator holds a finite score, the bestMatch fold agrees
with its arithmetic-level shadow pickBest, provided every remaining profile
has at least one target entry. -/
theorem foldl_bestStep_eq_pickBest (sm : EMap) (l : List EState) :
    ∀ (n : String) (q : ℚ), (∀ st ∈ l, 0 < st.targets.length) →
      List.foldl (bestStep sm) (n, some q) l
        = ((pickBest sm l (n, q)).1, some (pickBest sm l (n, q)).2) := by
  induction l with
  | nil => intro n q _; simp [pickBest]
  | cons st0 rest ih =>
    intro n q h
    have h0 : 0 < st0.targets.length := h st0 (List.mem_cons_self _ _)
    have hr : ∀ st ∈ rest, 0 < st.targets.length :=
      fun st hst => h st (List.mem_cons_of_mem _ hst)
    have hstep : pickBest sm (st0 :: rest) (n, q)
        = pickBest sm rest
            (if stateScore sm st0 < q then (st0.name, stateScore sm st0)
             else (n, q)) := rfl
    by_cases hlt : stateScore sm st0 < q
    · rw [List.foldl_cons, bestStep_lt sm st0 n q h0 hlt, hstep, if_pos hlt]
      exact ih st0.name (stateScore sm st0) hr
    · rw [List.foldl_cons, bestStep_keep sm st0 n q h0 hlt, hstep, if_neg hlt]
      exact ih n q hr

/-- pickBest keeps the accumulator unless some listed profile scores
strictly below it, in which case it returns the first profile attaining the
minimum: strictly below the accumulator and every earlier listed profile,
and at or below every listed profile. -/
theorem pickBest_spec (sm : EMap) :
    ∀ (l : List EState) (n : String) (q : ℚ),
      (pickBest sm l (n, q) = (n, q) ∧ ∀ st ∈ l, q ≤ stateScore sm st) ∨
      (∃ pre st post, l = pre ++ st :: post ∧
        pickBest sm l (n, q) = (st.name, stateScore sm st) ∧
        stateScore sm st < q ∧
        (∀ st2 ∈ pre, stateScore sm st < stateScore sm st2) ∧
        (∀ st2 ∈ l, stateScore sm st ≤ stateScore sm st2)) := by
  intro l
  induction l with
  | nil => intro n q; left; exact ⟨rfl, by simp⟩
  | cons st0 rest ih =>
    intro n q
    have hstep : pickBest sm (st0 :: rest) (n, q)
        = pickBest sm rest
            (if stateScore sm st0 < q then (st0.name, stateScore sm st0)
             else (n, q)) := rfl
    by_cases hlt : stateScore sm st0 < q
    · rcases ih st0.name (stateScore sm st0) with ⟨he, hall⟩ |
        ⟨pre, st, post, hl, he, hq, hpre, hall⟩
      · right
        refine ⟨[], st0, rest, rfl, ?_, hlt, by simp, ?_⟩
        · rw [hstep, if_pos hlt, he]
        · intro st2 h2
          rcases List.mem_cons.mp h2 with h2 | h2
          · subst h2; exact le_refl _
          · exact hall st2 h2
      · right
        refine ⟨st0 :: pre, st, post, by rw [hl, List.cons_append], ?_,
          lt_trans hq hlt, ?_, ?_⟩
        · rw [hstep, if_pos hlt, he]
        · intro st2 h2
          rcases List.mem_cons.mp h2 with h2 | h2
          · subst h2; exact hq
          · exact hpre st2 h2
        · intro st2 h2
          rcases List.mem_cons.mp h2 with h2 | h2
          · subst h2; exact le_of_lt hq
          · exact hall st2 h2
    · have hq0 : q ≤ stateScore sm st0 := not_lt.mp hlt
      rcases ih n q with ⟨he, hall⟩ | ⟨pre, st, post, hl, he, hq, hpre, hall⟩
      · left
        refine ⟨by rw [hstep, if_neg hlt, he], ?_⟩
        intro st2 h2
        rcases List.mem_cons.mp h2 with h2 | h2
        · subst h2; exact hq0
        · exact hall st2 h2
      · right
        refine ⟨st0 :: pre, st, post, by rw [hl, List.cons_append],
          by rw [hstep, if_neg hlt, he], hq, ?_, ?_⟩
        · intro st2 h2
          rcases List.mem_cons.mp h2 with h2 | h2
          · subst h2; exact lt_of_lt_of_le hq hq0
          · exact hpre st2 h2
        · intro st2 h2
          rcases List.mem_cons.mp h2 with h2 | h2
          · subst h2; exact le_of_lt (lt_of_lt_of_le hq hq0)
          · exact hall st2 h2

/-- On a non-empty smoothed state, detectCurrentState returns the name of
the first profile in table order attaining the minimal mean absolute
difference. -/
theorem detect_first_argmin (sm : EMap) (h : sm.isEmpty = false) :
    ∃ pre st post, EMOTION_STATES = pre ++ st :: post ∧
      detectCurrentState sm = st.name ∧
      (∀ st2 ∈ pre, stateScore sm st < stateScore sm st2) ∧
      (∀ st2 ∈ EMOTION_STATES, stateScore sm st ≤ stateScore sm st2) := by
  have hne : ¬ (EMap.isEmpty sm = true) := by rw [h]; exact Bool.false_ne_true
  have hlen : ∀ st ∈ restStates, 0 < st.targets.length := by decide
  have hdet : detectCurrentState sm
      = (pickBest sm restStates
          (stHighlyEngaged.name, stateScore sm stHighlyEngaged)).1 := by
    rw [detectCurrentState, if_neg hne, EMOTION_STATES, List.foldl_cons,
      bestStep_none sm stHighlyEngaged "" (by decide),
      foldl_bestStep_eq_pickBest sm restStates stHighlyEngaged.name
        (stateScore sm stHighlyEngaged) hlen]
  rcases pickBest_spec sm restStates stHighlyEngaged.name
      (stateScore sm stHighlyEngaged) with ⟨he, hall⟩ |
      ⟨pre, st, post, hl, he, hq, hpre, hall⟩
  · refine ⟨[], stHighlyEngaged, restStates, rfl, ?_, by simp, ?_⟩
    · rw [hdet, he]
    · intro st2 h2
      rw [EMOTION_STATES] at h2
      rcases List.mem_cons.mp h2 with h2 | h2
      · subst h2; exact le_refl _
      · exact hall st2 h2
  · refine ⟨stHighlyEngaged :: pre, st, post,
      by rw [EMOTION_STATES, hl, List.cons_append], ?_, ?_, ?_⟩
    · rw [hdet, he]
    · intro st2 h2
      rcases List.mem_cons.mp h2 with h2 | h2
      · subst h2; exact hq
      · exact hpre st2 h2
    · intro st2 h2
      rw [EMOTION_STATES] at h2
      rcases List.mem_cons.mp h2 with h2 | h2
      · subst h2; exact le_of_lt hq
      · exact hall st2 h2

/-- C4: on a non-empty SmoothedState the classifier selects the profile of
minimal mean absolute difference over exactly the categories the profile
specifies, ties going to the profile declared first in the table; on an
empty SmoothedState it returns the empty string and the EngagementState is
left unchanged. -/
theorem stateClassifier_first_argmin (sm : EMap) :
    (sm.isEmpty = true → detectCurrentState sm = "" ∧
      ∀ cur, applyStateUpdate cur sm = cur) ∧
    (sm.isEmpty = false → ∃ pre st post,
      EMOTION_STATES = pre ++ st :: post ∧
      detectCurrentState sm = st.name ∧
      (∀ st2 ∈ pre, stateScore sm st < stateScore sm st2) ∧
      (∀ st2 ∈ EMOTION_STATES, stateScore sm st ≤ stateScore sm st2)) := by
  constructor
  · intro h
    have hd : detectCurrentState sm = "" := by
      simp [detectCurrentState, h]
    exact ⟨hd, fun cur => by simp [applyStateUpdate, hd]⟩
  · exact detect_first_argmin sm

/-- Witness for C4 at a concrete non-empty smoothed state. -/
theorem stateClassifier_first_argmin_witness :
    EMap.isEmpty tieSmoothed = false ∧
    (∃ pre st post, EMOTION_STATES = pre ++ st :: post ∧
      detectCurrentState tieSmoothed = st.name ∧
      (∀ st2 ∈ pre, stateScore tieSmoothed st < stateScore tieSmoothed st2) ∧
      (∀ st2 ∈ EMOTION_STATES,
        stateScore tieSmoothed st ≤ stateScore tieSmoothed st2)) :=
  ⟨by decide, (stateClassifier_first_argmin tieSmoothed).2 (by decide)⟩

/-- C2 (amended): on a non-empty SmoothedState the tick replaces the held
EngagementState exactly when the first-declared minimal-scoring profile has
a different name: the new state is always the name of that profile, regardless
of how the held state scores, so a profile that merely ties the held state
but is declared earlier does replace it. -/
theorem stateClassifier_update_amended (cur : String) (sm : EMap)
    (h : sm.isEmpty = false) :
    ∃ pre st post, EMOTION_STATES = pre ++ st :: post ∧
      applyStateUpdate cur sm = st.name ∧
      (∀ st2 ∈ pre, stateScore sm st < stateScore sm st2) ∧
      (∀ st2 ∈ EMOTION_STATES, stateScore sm st ≤ stateScore sm st2) := by
  obtain ⟨pre, st, post, hl, hd, hpre, hall⟩ := detect_first_argmin sm h
  have hmem : st ∈ EMOTION_STATES := by
    rw [hl]; exact List.mem_append_right _ (List.mem_cons_self _ _)
  have hname : st.name ≠ "" := by
    have hnames : ∀ st2 ∈ EMOTION_STATES, st2.name ≠ "" := by decide
    exact hnames st hmem
  refine ⟨pre, st, post, hl, ?_, hpre, hall⟩
  by_cases hc : st.name = cur
  · simp [applyStateUpdate, hd, hc]
  · simp [applyStateUpdate, hd, hname, hc]

/-- Witness for the amended C2 theorem at a concrete held state and smoothed
state. -/
theorem stateClassifier_update_amended_witness :
    EMap.isEmpty tieSmoothed = false ∧
    (∃ pre st post, EMOTION_STATES = pre ++ st :: post ∧
      applyStateUpdate "Disengaged / Distracted" tieSmoothed = st.name ∧
      (∀ st2 ∈ pre, stateScore tieSmoothed st < stateScore tieSmoothed st2) ∧
      (∀ st2 ∈ EMOTION_STATES,
        stateScore tieSmoothed st ≤ stateScore tieSmoothed st2)) :=
  ⟨by decide,
    stateClassifier_update_amended "Disengaged / Distracted" tieSmoothed
      (by decide)⟩

/-- C2 counterexample: on the smoothed state tieSmoothed the held state
"Constructively Struggling" is among the profiles tied for the smallest
score, yet the tick replaces it with "Highly Engaged", the tied profile
declared earlier. -/
theorem stateClassifier_tie_switch_cex :
    stateScore tieSmoothed stConstructivelyStruggling
      = stateScore tieSmoothed stHighlyEngaged ∧
    (∀ st ∈ EMOTION_STATES, stateScore tieSmoothed stConstructivelyStruggling
      ≤ stateScore tieSmoothed st) ∧
    stConstructivelyStruggling.name = "Constructively Struggling" ∧
    stConstructivelyStruggling ∈ EMOTION_STATES ∧
    detectCurrentState tieSmoothed = "Highly Engaged" ∧
    applyStateUpdate "Constructively Struggling" tieSmoothed
      ≠ "Constructively Struggling" := by
  have h0 : stateScore tieSmoothed stHighlyEngaged = 5 := by
    norm_num [stateScore, targetsDiff, tieSmoothed, stHighlyEngaged, mabs,
      EMap.read, List.foldl]
  have h1 : stateScore tieSmoothed stConstructivelyStruggling = 5 := by
    norm_num [stateScore, targetsDiff, tieSmoothed, stConstructivelyStruggling,
      mabs, EMap.read, List.foldl]
  have h2 : stateScore tieSmoothed stConfusedOverloaded = 15 / 2 := by
    norm_num [stateScore, targetsDiff, tieSmoothed, stConfusedOverloaded, mabs,
      EMap.read, List.foldl]
  have h3 : stateScore tieSmoothed stDisengagedDistracted = 25 / 3 := by
    norm_num [stateScore, targetsDiff, tieSmoothed, stDisengagedDistracted,
      mabs, EMap.read, List.foldl]
  have h4 : stateScore tieSmoothed stActivelyResistant = 50 / 3 := by
    norm_num [stateScore, targetsDiff, tieSmoothed, stActivelyResistant, mabs,
      EMap.read, List.foldl]
  have hne : ¬ (EMap.isEmpty tieSmoothed = true) := by decide
  have hfold : List.foldl (bestStep tieSmoothed) ("", none) EMOTION_STATES
      = ("Highly Engaged", some 5) := by
    rw [EMOTION_STATES, restStates, List.foldl_cons,
      bestStep_none tieSmoothed stHighlyEngaged "" (by decide), h0]
    rw [List.foldl_cons,
      bestStep_keep tieSmoothed stConstructivelyStruggling _ 5 (by decide)
        (by rw [h1]; norm_num)]
    rw [List.foldl_cons,
      bestStep_keep tieSmoothed stConfusedOverloaded _ 5 (by decide)
        (by rw [h2]; norm_num)]
    rw [List.foldl_cons,
      bestStep_keep tieSmoothed stDisengagedDistracted _ 5 (by decide)
        (by rw [h3]; norm_num)]
    rw [List.foldl_cons,
      bestStep_keep tieSmoothed stActivelyResistant _ 5 (by decide)
        (by rw [h4]; norm_num)]
    rfl
  have hdet : detectCurrentState tieSmoothed = "Highly Engaged" := by
    rw [detectCurrentState, if_neg hne, hfold]
  refine ⟨by rw [h0, h1], ?_, rfl, ?_, hdet, ?_⟩
  · intro st hst
    rw [EMOTION_STATES, restStates] at hst
    rcases List.mem_cons.mp hst with hst | hst
    · subst hst; rw [h0, h1]
    rcases List.mem_cons.mp hst with hst | hst
    · subst hst; rw [h1]
    rcases List.mem_cons.mp hst with hst | hst
    · subst hst; rw [h1, h2]; norm_num
    rcases List.mem_cons.mp hst with hst | hst
    · subst hst; rw [h1, h3]; norm_num
    rcases List.mem_cons.mp hst with hst | hst
    · subst hst; rw [h1, h4]; norm_num
    · simp at hst
  · rw [EMOTION_STATES, restStates]
    exact List.mem_cons_of_mem _ (List.mem_cons_self _ _)
  · rw [applyStateUpdate]
    simp only [hdet]
    decide

/-- C5 (amended): on a successful tick the duration added to the dominant
category equals max(0, now - baseline) where the baseline is the timestamp
recorded by the most recent prior attempt (equal to the previous successful
tick only when no failed or no-detection attempt intervened), every other
category is unchanged and the baseline becomes now; a no-detection attempt
adds no dwell time and resets the baseline to the current time; a thrown
detection error adds no dwell time and resets the baseline to the time
observed in the catch block. -/
theorem samplingLoop_delta_amended (st : LoopState) (now : ℚ) :
    (∀ s : Scores,
      (tickStep st now (.success s)).emotionDurationsMs (dominant s)
        = st.emotionDurationsMs (dominant s)
          + max 0 (now - st.lastTick.getD now) ∧
      (∀ e, e ≠ dominant s →
        (tickStep st now (.success s)).emotionDurationsMs e
          = st.emotionDurationsMs e) ∧
      (tickStep st now (.success s)).lastTick = some now) ∧
    ((tickStep st now .noDetection).emotionDurationsMs
        = st.emotionDurationsMs ∧
      (tickStep st now .noDetection).lastTick = some now) ∧
    (∀ t, (tickStep st now (.failure t)).emotionDurationsMs
        = st.emotionDurationsMs ∧
      (tickStep st now (.failure t)).lastTick = some t) ∧
    0 ≤ max 0 (now - st.lastTick.getD now) := by
  refine ⟨fun s => ⟨?_, fun e he => ?_, rfl⟩, ⟨rfl, rfl⟩, fun t => ⟨rfl, rfl⟩,
    le_max_left 0 _⟩
  · simp [tickStep]
  · simp [tickStep, he]

/-- Witness for the amended C5 theorem: a non-dominant category keeps its
duration across a concrete successful tick. -/
theorem samplingLoop_delta_amended_witness :
    Emotion.angry ≠ dominant sHappy ∧
    (tickStep initLoopState 800 (.success sHappy)).emotionDurationsMs
      Emotion.angry = initLoopState.emotionDurationsMs Emotion.angry :=
  ⟨by decide,
    ((samplingLoop_delta_amended initLoopState 800).1 sHappy).2.1 Emotion.angry
      (by decide)⟩

/-- C5 counterexample: after a successful tick at time 0 and a no-detection
attempt at time 1000, the successful tick at time 2000 adds only 1000 ms of
dwell time (measured from the intervening failed attempt), not the 2000 ms
elapsed since the previous successful tick. -/
theorem samplingLoop_delta_cex :
    (tickStep (tickStep (tickStep initLoopState 0 (.success sHappy)) 1000
        .noDetection) 2000 (.success sHappy)).emotionDurationsMs Emotion.happy
      = 1000 ∧
    (1000 : ℚ) ≠ 2000 := by
  constructor
  · have hdom : dominant sHappy = Emotion.happy := by decide
    simp only [tickStep, initLoopState, hdom, Option.getD_some, if_pos rfl,
      max_def]
    norm_num
  · norm_num

/-- C6 (code bug): the initial EngagementState exposed to the presentation
layer is the leftover test value "Actively Resistant", one of the five
profile names, not "undetermined"; no reading has classified at startup. -/
theorem initial_state_test_value :
    initialAppState.currentState = "Actively Resistant" ∧
    initialAppState.currentState ≠ "undetermined" ∧
    initialAppState.currentState ∈ EMOTION_STATES.map (fun st => st.name) :=
  ⟨rfl, by decide, by decide⟩

end FaceTracker
